import Mathlib

/-!
Verification of the field-inference engine of `converter_core.py`
(class `PDFConverter`): a PDF AcroForm converter that detects checkbox
and text-field regions on a page.

Shallow embedding conventions:
* Python strings are `List Char` (`Str`); Python float coordinates are `ℚ`;
  the Python `set` of used position indices is a `List ℕ` used only through
  membership.
* External collaborators (the PyMuPDF document library, the remote Mistral
  OCR service and the local EasyOCR engine) are modelled at their interface
  boundary: a `Page` carries the data the code reads from them — its typed
  text blocks, its width, the `search_for` glyph-search function, and the
  list of EasyOCR text positions for the page.
* The two regular expressions of the source are embedded as executable
  scanners with Python `re` leftmost / greedy / lazy semantics.
-/

/-- Python strings, modelled as lists of characters. -/
abbrev Str := List Char

/-- Converts a Lean string literal to the `Str` model. -/
def strOf (s : String) : Str := s.data

/-- Python whitespace test used by `str.strip`, `str.split()` and `re` class
`\s` (space, tab, newline, carriage return, vertical tab, form feed). -/
def isWs (c : Char) : Bool :=
  c == ' ' || c == Char.ofNat 9 || c == Char.ofNat 10 || c == Char.ofNat 13 ||
    c == Char.ofNat 11 || c == Char.ofNat 12

/-- Python `str.lstrip()` (whitespace). -/
def pyLstrip (s : Str) : Str := s.dropWhile isWs

/-- Python `str.rstrip()` (whitespace). -/
def pyRstripWs (s : Str) : Str := (s.reverse.dropWhile isWs).reverse

/-- Python `str.strip()` (whitespace on both ends). -/
def pyStrip (s : Str) : Str := pyRstripWs (pyLstrip s)

/-- Python `str.rstrip(chars)`: removes trailing characters drawn from `cs`. -/
def pyRstripChars (cs : List Char) (s : Str) : Str :=
  (s.reverse.dropWhile (fun c => cs.contains c)).reverse

/-- Python `str.lower()` (ASCII case folding; the engine's inputs here are
checkbox glyphs and Latin label text). -/
def lowerStr (s : Str) : Str := s.map Char.toLower

/-- Auxiliary recursion for Python `str.split(sep)`: cuts at each leftmost
non-overlapping occurrence of `sep`; `acc` holds the reversed current
segment.  Structural recursion on a fuel counter keeps the definition
kernel-reducible; each step consumes at least one character of `s`, so the
initial fuel `s.length + 1` is never exhausted. -/
def pySplitAux (sep : Str) : ℕ → Str → Str → List Str
  | 0, s, acc => [acc.reverse ++ s]
  | fuel + 1, s, acc =>
    match s with
    | [] => [acc.reverse]
    | c :: rest =>
      if sep.isPrefixOf (c :: rest) then
        acc.reverse :: pySplitAux sep fuel (List.drop (sep.length - 1) rest) []
      else
        pySplitAux sep fuel rest (c :: acc)

/-- Python `str.split(sep)` for a non-empty separator. -/
def pySplit (sep s : Str) : List Str := pySplitAux sep (s.length + 1) s []

/-- Fuel recursion for `re.sub(r'\s+', ' ', s)`; every step consumes at
least one character, so fuel `s.length` suffices. -/
def collapseWsAux : ℕ → Str → Str
  | 0, _ => []
  | fuel + 1, s =>
    match s with
    | [] => []
    | c :: rest =>
      if isWs c then ' ' :: collapseWsAux fuel (rest.dropWhile isWs)
      else c :: collapseWsAux fuel rest

/-- Python `re.sub(r'\s+', ' ', s)`: each maximal whitespace run becomes a
single space. -/
def collapseWs (s : Str) : Str := collapseWsAux s.length s

/-- Fuel recursion for `str.split()`; every step consumes at least one
character, so fuel `s.length` suffices. -/
def pyWordsAux : ℕ → Str → List Str
  | 0, _ => []
  | fuel + 1, s =>
    match s with
    | [] => []
    | c :: rest =>
      if isWs c then pyWordsAux fuel rest
      else (c :: rest.takeWhile (fun d => !isWs d)) ::
        pyWordsAux fuel (rest.dropWhile (fun d => !isWs d))

/-- Python `str.split()` with no argument: the maximal non-whitespace runs. -/
def pyWords (s : Str) : List Str := pyWordsAux s.length s

/-! ## Data model (§3 of the design): rectangles, fields, pages -/

/-- Rational addition written through `Rat.divInt` so that it is
kernel-computable (`Rat.add` is irreducible in this toolchain);
`qadd_eq` below proves it equal to field addition on `ℚ`. -/
def qadd (a b : ℚ) : ℚ := Rat.divInt (a.num * b.den + b.num * a.den) (a.den * b.den)

/-- Rational subtraction written through `Rat.divInt`; `qsub_eq` below
proves it equal to field subtraction on `ℚ`. -/
def qsub (a b : ℚ) : ℚ := Rat.divInt (a.num * b.den - b.num * a.den) (a.den * b.den)

/-- Rational division written through `Rat.divInt`; `qdiv_eq_div` below
proves it equal to field division on `ℚ`. -/
def qdiv (a b : ℚ) : ℚ := Rat.divInt (a.num * b.den) (a.den * b.num)

/-- A page-space rectangle, as PyMuPDF `fitz.Rect` (floats modelled as `ℚ`). -/
structure Rect where
  x0 : ℚ
  y0 : ℚ
  x1 : ℚ
  y1 : ℚ
deriving DecidableEq

/-- `fitz.Rect.width`. -/
def Rect.width (r : Rect) : ℚ := qsub r.x1 r.x0

/-- `fitz.Rect.height`. -/
def Rect.height (r : Rect) : ℚ := qsub r.y1 r.y0

/-- PyMuPDF `Rect.is_empty`: true when `x0 >= x1` or `y0 >= y1`. -/
def Rect.isEmptyR (r : Rect) : Bool := decide (r.x1 ≤ r.x0) || decide (r.y1 ≤ r.y0)

/-- PyMuPDF `Rect.intersects`: both rectangles are non-empty and their
coordinate-wise intersection is non-empty.  (The `is_infinite` escape of the
library concerns its sentinel infinite rectangle, which the converter never
builds, and is not modelled.) -/
def Rect.intersects (r s : Rect) : Bool :=
  !r.isEmptyR && !s.isEmptyR &&
    decide (max r.x0 s.x0 < min r.x1 s.x1) && decide (max r.y0 s.y0 < min r.y1 s.y1)

/-- The two field kinds the engine produces (`"checkbox"` / `"text"`). -/
inductive FKind where
  | checkbox
  | text
deriving DecidableEq

/-- A placed FieldDescriptor: the dicts `{"type": ..., "rect": ...}` built by
the locators and consumed by `detect_fields` and `convert`.  (Named `FieldD`
since `Field` is taken by Mathlib.) -/
structure FieldD where
  kind : FKind
  rect : Rect
deriving DecidableEq

/-- An unplaced FieldCandidate from the markdown extractor:
`{"type": ..., "label": ...}`. -/
structure FieldInfo where
  kind : FKind
  label : Str
deriving DecidableEq

/-- A TextPosition measured by the local OCR engine
(`{"text": ..., "rect": ..., "conf": ...}` in `_ocr_page_positions`). -/
structure TextPos where
  text : Str
  rect : Rect
  conf : ℚ
deriving DecidableEq

/-- A span of a native text line (only its `"text"` entry is read). -/
structure Span where
  text : Str
deriving DecidableEq

/-- A native text line: ordered spans plus the line `"bbox"`. -/
structure TLine where
  spans : List Span
  bbox : Rect
deriving DecidableEq

/-- A native text block: its `"type"` tag (0 = text) and its lines. -/
structure Block where
  btype : ℕ
  lines : List TLine
deriving DecidableEq

/-- One page together with everything the engine reads from the external
document library and the local OCR engine: the raw block list of
`page.get_text("dict")["blocks"]`, the page width, the glyph search
`page.search_for`, and the EasyOCR positions `_ocr_page_positions(page)`
already rescaled to page coordinates. -/
structure Page where
  blocks : List Block
  width : ℚ
  searchFor : Str → List Rect
  ocrPositions : List TextPos

/-- One page of the remote OCR response (`mp.index`, `mp.markdown`). -/
structure MistralPage where
  index : ℕ
  markdown : Str

/-- `PDFConverter._get_page_text_blocks`: the blocks with `type == 0`. -/
def pageTextBlocks (p : Page) : List Block := p.blocks.filter (fun b => b.btype == 0)

/-- `PDFConverter.CHECKBOX_CHARS`. -/
def CHECKBOX_CHARS : List Str :=
  [strOf "□", strOf "☐", strOf "☑", strOf "☒", strOf "▢", strOf "◻", strOf "◯", strOf "■"]

/-- `PDFConverter.CHECKBOX_ENCODED` (mis-decoded byte sequences). -/
def CHECKBOX_ENCODED : List Str :=
  [strOf "Γÿé", strOf "Γÿí", strOf "Γûí", strOf "Γûá", strOf "ΓÿÉ"]

/-- `ALL_CB = CHECKBOX_CHARS + CHECKBOX_ENCODED` (also the iteration order of
`_find_checkbox_locations`). -/
def ALL_CB : List Str := CHECKBOX_CHARS ++ CHECKBOX_ENCODED

/-! ## Markdown Field Extractor (`_extract_form_fields_from_markdown`) -/

/-- Character class of the markdown text-label pattern
`[A-Za-z\s/\'()\[\]#*\d.]` (letters, whitespace, slash, apostrophe,
parentheses, brackets, `#`, `*`, digits, period). -/
def inClassMd (c : Char) : Bool :=
  c.isAlpha || isWs c || c == '/' || c == Char.ofNat 39 || c == '(' || c == ')' ||
    c == '[' || c == ']' || c == '#' || c == '*' || c.isDigit || c == '.'

/-- Matches `\s*:` at the start of `t` (greedy `\s*`, then a colon); returns
the number of characters consumed. -/
def wsColonLen (t : Str) : Option ℕ :=
  let j := (t.takeWhile isWs).length
  match (t.drop j).head? with
  | some c => if c = ':' then some (j + 1) else none
  | none => none

/-- Matches `\*?\s*:` at the start of `t`; returns the number of characters
consumed.  The regex engine prefers consuming a leading `*`; if `t` starts
with `*` and no colon follows the whitespace run, the starless alternative
also fails because `*` is not `:`. -/
def colonTailLen (t : Str) : Option ℕ :=
  if t.head? = some '*' then (wsColonLen (List.drop 1 t)).map (· + 1)
  else wsColonLen t

/-- Attempts the lazy pattern `([A-Za-z\s/\'()\[\]#*\d.]+?)\*?\s*:` at the
start of `s`: the smallest `k ≥ 1` such that the first `k` characters are in
the class and `\*?\s*:` matches right after them; returns the whole-match
length. -/
def firstMatchLen (s : Str) : Option ℕ :=
  ((List.range s.length).filterMap (fun km1 =>
    let k := km1 + 1
    if (s.take k).all inClassMd then (colonTailLen (s.drop k)).map (fun m => k + m)
    else none)).head?

/-- `re.finditer` scan of the markdown label pattern, collecting each whole
match (`match.group(0)`): try a match at every position from the left; on
success continue after the match, on failure continue at the next character.
The fuel starts at the string length; every iteration either consumes at
least one character of `s` or ends the scan, so it never runs out early. -/
def finditerColonAux : ℕ → Str → List Str
  | 0, _ => []
  | fuel + 1, s =>
    match firstMatchLen s with
    | some e => s.take e :: finditerColonAux fuel (s.drop e)
    | none =>
      match s with
      | [] => []
      | _ :: rest => finditerColonAux fuel rest

/-- All whole matches of `re.finditer(r'([A-Za-z\s/\'()\[\]#*\d.]+?)\*?\s*:', line)`. -/
def finditerColon (s : Str) : List Str := finditerColonAux s.length s

/-- Python substring test `a in b` (the empty string is a substring of
everything), decided through `List.IsInfix`. -/
def substrOf (a b : Str) : Bool := decide (a <:+: b)

/-- The `skip_keywords` noise blacklist of `_extract_form_fields_from_markdown`. -/
def skip_keywords : List Str :=
  [strOf "NOTE:", strOf "---", strOf "http", strOf "sfhp.org", strOf "1(",
   strOf "Methods:", strOf "Services:", strOf "values.", strOf "below:", strOf "service."]

/-- The inner `for other_cb in ALL_CB` loop: starting from `part.strip()`,
repeatedly truncate the option text before the first occurrence of each
checkbox glyph present in it, re-stripping after each cut. -/
def cbTrimOption (part : Str) : Str :=
  ALL_CB.foldl
    (fun opt ocb => if substrOf ocb opt then pyStrip ((pySplit ocb opt).headD opt) else opt)
    (pyStrip part)

/-- Processing of one trailing segment `part` of a checkbox split: trim at
the next glyph, collapse whitespace, keep when non-empty of length in
(1, 60), storing only the first 30 characters of the label. -/
def cbProcessPart (part : Str) : Option FieldInfo :=
  let option := pyStrip (collapseWs (cbTrimOption part))
  if option ≠ [] ∧ 1 < option.length ∧ option.length < 60 then
    some ⟨FKind.checkbox, option.take 30⟩
  else none

/-- The checkbox half of the per-line extraction: for every glyph occurring
in the line, split the line at the glyph and process every trailing part. -/
def lineCheckboxFields (line : Str) : List FieldInfo :=
  ALL_CB.flatMap (fun cb =>
    if substrOf cb line then (pySplit cb line).tail.filterMap cbProcessPart
    else [])

/-- The text-label half of the per-line extraction: every colon match whose
stripped whole-match text is shorter than 40 characters and contains no
blacklisted keyword becomes a Text candidate. -/
def lineTextFields (line : Str) : List FieldInfo :=
  (finditerColon line).filterMap (fun m =>
    let label := pyStrip m
    if label.length < 40 ∧ ¬ (skip_keywords.any (fun sk => substrOf sk label)) = true then
      some ⟨FKind.text, label⟩
    else none)

/-- `PDFConverter._extract_form_fields_from_markdown`: replace `|` by
newlines, split into lines, skip blank and `---` lines, then extract
checkbox candidates followed by text candidates per line. -/
def extract_form_fields_from_markdown (md : Str) : List FieldInfo :=
  (pySplit [Char.ofNat 10] (md.map (fun c => if c = '|' then Char.ofNat 10 else c))).flatMap
    (fun line0 =>
      let line := pyStrip line0
      if line = [] ∨ (strOf "---").isPrefixOf line then []
      else lineCheckboxFields line ++ lineTextFields line)

/-! ## Fuzzy Position Matcher (`_find_label_position`) -/

/-- The normalization `label_text.rstrip(":*").strip().lower()`. -/
def normalizeLabel (label : Str) : Str :=
  lowerStr (pyStrip (pyRstripChars [':', '*'] label))

/-- The normalization `tp["text"].lower().strip()` of an OCR position. -/
def normalizeOcr (t : Str) : Str := pyStrip (lowerStr t)

/-- The comparison threshold `0.3` of the matcher, as the rational `3/10`. -/
def matchThreshold : ℚ := mkRat 3 10

/-- Substring score `len(label_clean) / max(len(ocr_clean), 1)`. -/
def subScore (lc oc : Str) : ℚ := qdiv (lc.length : ℚ) ((max oc.length 1 : ℕ) : ℚ)

/-- `set(label_clean.split())`, as a deduplicated word list. -/
def wordSet (s : Str) : List Str := (pyWords s).dedup

/-- The common words `label_words & ocr_words` (distinct words of the label
that also occur in the OCR text). -/
def commonWords (lc oc : Str) : List Str :=
  (wordSet lc).filter (fun w => w ∈ wordSet oc)

/-- Word-overlap score `len(common) / len(label_words)`. -/
def wordScore (lc oc : Str) : ℚ :=
  qdiv ((commonWords lc oc).length : ℚ) (((wordSet lc).length : ℕ) : ℚ)

/-- One iteration of the matcher's position loop (`for i, tp in
enumerate(ocr_positions)`), threading the running `(best_match, best_score)`
state: skip used indices, then try the substring score and afterwards the
word-overlap score, each replacing the state only when strictly greater. -/
def flpStep (lc : Str) (used : List ℕ) (st : Option (ℕ × TextPos) × ℚ)
    (p : ℕ × TextPos) : Option (ℕ × TextPos) × ℚ :=
  if p.1 ∈ used then st
  else
    let oc := normalizeOcr p.2.text
    let st1 :=
      if lc <:+: oc ∨ oc <:+: lc then
        (if subScore lc oc > st.2 then (some p, subScore lc oc) else st)
      else st
    if 1 ≤ (commonWords lc oc).length ∧ 0 < (wordSet lc).length then
      (if wordScore lc oc > st1.2 then (some p, wordScore lc oc) else st1)
    else st1

/-- `PDFConverter._find_label_position`: normalize the label, reject short
labels, fold the scoring loop over the enumerated positions, and return the
best match only when one was recorded with score above 0.3. -/
def find_label_position (label : Str) (ps : List TextPos) (used : List ℕ) :
    Option (ℕ × TextPos) :=
  let lc := normalizeLabel label
  if lc.length < 2 then none
  else
    let st := ps.enum.foldl (flpStep lc used) (none, 0)
    if st.1.isSome ∧ st.2 > matchThreshold then st.1 else none

/-- The per-position score as the specification describes it: the maximum of
the substring score (when either normalized string contains the other) and
the word-overlap score (when the word intersection is non-empty), each
defaulting to 0. -/
def posScore (lc : Str) (tp : TextPos) : ℚ :=
  let oc := normalizeOcr tp.text
  max (if lc <:+: oc ∨ oc <:+: lc then subScore lc oc else 0)
    (if 1 ≤ (commonWords lc oc).length ∧ 0 < (wordSet lc).length then wordScore lc oc else 0)

/-- The highest `posScore` over the unused positions (0 when none). -/
def highestScore (lc : Str) (ps : List TextPos) (used : List ℕ) : ℚ :=
  ((ps.enum.filter (fun p => decide (p.1 ∉ used))).map
    (fun p => posScore lc p.2)).foldr max 0

/-- Specification-side matcher, following the claim's words: reject labels
whose normalization is shorter than 2 characters; otherwise return the first
unused position attaining the highest score if and only if that score
exceeds 0.3. -/
def find_label_position_spec (label : Str) (ps : List TextPos) (used : List ℕ) :
    Option (ℕ × TextPos) :=
  let lc := normalizeLabel label
  if lc.length < 2 then none
  else
    let top := highestScore lc ps used
    if top > matchThreshold then
      (ps.enum.filter (fun p => decide (p.1 ∉ used))).find?
        (fun p => decide (posScore lc p.2 = top))
    else none

/-! ## OCR Field Synthesizer (`_detect_fields_ocr`) -/

/-- The width bound of a matched text label: start from `page_width - 20`
and lower it to `other.x0 - 2` for every other OCR position on the same
visual line (vertical origin within 5 units) lying right of the label. -/
def ocrRightBound (pw : ℚ) (ps : List TextPos) (idx : ℕ) (tp : TextPos) : ℚ :=
  ps.enum.foldl
    (fun acc jp =>
      if jp.1 ≠ idx ∧ |qsub jp.2.rect.y0 tp.rect.y0| < 5 ∧
          jp.2.rect.x0 > qadd tp.rect.x1 5 then
        min acc (qsub jp.2.rect.x0 2)
      else acc)
    (qsub pw 20)

/-- The candidate loop of `_detect_fields_ocr`, instrumented to record, for
every candidate that found a match, the consumed position index together
with the field it emitted (`none` for a text candidate rejected by the
final width guard — the index is still marked used before that guard in the
source).  The fields actually returned are the `filterMap` of the second
components. -/
def detect_fields_ocr_loop (pw : ℚ) (ps : List TextPos) :
    List FieldInfo → List ℕ → List (ℕ × Option FieldD)
  | [], _ => []
  | fi :: rest, used =>
    match fi.kind with
    | FKind.checkbox =>
      match find_label_position fi.label ps used with
      | some (idx, tp) =>
        (idx, some ⟨FKind.checkbox,
            ⟨qsub tp.rect.x0 12, tp.rect.y0, qsub tp.rect.x0 1, tp.rect.y1⟩⟩) ::
          detect_fields_ocr_loop pw ps rest (idx :: used)
      | none => detect_fields_ocr_loop pw ps rest used
    | FKind.text =>
      match find_label_position fi.label ps used with
      | some (idx, tp) =>
        let fx0 := qadd tp.rect.x1 2
        let fx1 := max (qadd fx0 20) (min (ocrRightBound pw ps idx tp) (qadd fx0 200))
        (idx, if qsub fx1 fx0 > 15 then
            some ⟨FKind.text, ⟨fx0, tp.rect.y0, fx1, tp.rect.y1⟩⟩
          else none) ::
          detect_fields_ocr_loop pw ps rest (idx :: used)
      | none => detect_fields_ocr_loop pw ps rest used

/-- `PDFConverter._detect_fields_ocr`: parse the page markdown into
candidates and run the matching loop over the page's OCR positions with an
initially empty used set. -/
def detect_fields_ocr (page : Page) (md : Str) : List FieldD :=
  (detect_fields_ocr_loop page.width page.ocrPositions
    (extract_form_fields_from_markdown md) []).filterMap (fun e => e.2)

/-! ## Native text strategies -/

/-- `PDFConverter._find_checkbox_locations`: every search hit of every
glyph of the alphabet, in alphabet order. -/
def find_checkbox_locations (page : Page) : List Rect :=
  ALL_CB.flatMap (fun g => page.searchFor g)

/-- The key order `(r.y0, r.x0)` of the underscore sort. -/
def rectKeyLe (r s : Rect) : Prop := r.y0 < s.y0 ∨ (r.y0 = s.y0 ∧ r.x0 ≤ s.x0)

instance (r s : Rect) : Decidable (rectKeyLe r s) := by
  unfold rectKeyLe
  infer_instance

/-- Stable insertion preserving the original order of equal keys, so that
the result is Python's stable `sorted(..., key=lambda r: (r.y0, r.x0))`. -/
def insertRect (r : Rect) : List Rect → List Rect
  | [] => [r]
  | s :: rest => if rectKeyLe r s then r :: s :: rest else s :: insertRect r rest

/-- Python `sorted(instances, key=lambda r: (r.y0, r.x0))`. -/
def pySortedRects (l : List Rect) : List Rect := l.foldr insertRect []

/-- One step of the underscore merging loop: if the incoming instance is on
the same visual line as the last merged rectangle (`|inst.y0 - last.y0| < 3`)
and starts within 5 units of its right edge (`inst.x0 < last.x1 + 5`),
replace the last rectangle by the bounding box of both, else append. -/
def mergeStep (merged : List Rect) (inst : Rect) : List Rect :=
  match merged.getLast? with
  | some last =>
    if |qsub inst.y0 last.y0| < 3 ∧ inst.x0 < qadd last.x1 5 then
      merged.dropLast ++
        [⟨min last.x0 inst.x0, min last.y0 inst.y0, max last.x1 inst.x1, max last.y1 inst.y1⟩]
    else merged ++ [inst]
  | none => [inst]

/-- `PDFConverter._find_underscore_fields`: search for `"___"`, return
empty when nothing was found, otherwise sort by `(y0, x0)`, merge adjacent
runs, and emit one Text field per merged rectangle with its bottom edge
extended by 2 units. -/
def find_underscore_fields (page : Page) : List FieldD :=
  let instances := page.searchFor (strOf "___")
  if instances = [] then []
  else
    ((pySortedRects instances).foldl mergeStep []).map
      (fun m => ⟨FKind.text, ⟨m.x0, m.y0, m.x1, qadd m.y1 2⟩⟩)

/-- Character class of the native label pattern `[A-Za-z\s/\'()#*]`
(letters, whitespace, slash, apostrophe, parentheses, `#`, `*` — and, unlike
the markdown pattern, no digits, brackets or periods). -/
def inClassNative (c : Char) : Bool :=
  c.isAlpha || isWs c || c == '/' || c == Char.ofNat 39 || c == '(' || c == ')' ||
    c == '#' || c == '*'

/-- `re.findall(r'(C+)\s*:\s*', lt)` for a character class `C` that contains
all whitespace: a match group is exactly a maximal run of class characters
immediately followed by `:`; scanning resumes after the colon and the
whitespace the trailing `\s*` consumes.  (When a run is not followed by a
colon, every start position inside it fails alike, so the scan may continue
behind the run.)  Structural recursion on fuel `s.length`; each step
consumes at least one character. -/
def findallLabelsAux (inC : Char → Bool) : ℕ → Str → List Str
  | 0, _ => []
  | fuel + 1, s =>
    match s with
    | [] => []
    | c :: rest =>
      if inC c then
        let run := c :: rest.takeWhile inC
        match rest.dropWhile inC with
        | ':' :: tail => run :: findallLabelsAux inC fuel (tail.dropWhile isWs)
        | after => findallLabelsAux inC fuel after
      else findallLabelsAux inC fuel rest

/-- All groups of `re.findall(r'([A-Za-z\s/\'()#*]+)\s*:\s*', lt)`. -/
def findallLabelsNative (s : Str) : List Str := findallLabelsAux inClassNative s.length s

/-- The field emission of `_find_label_fields` for one located label
rectangle: start 2 units right of the colon, end at
`min(fx0 + 150, page_width - 20)`, and keep the field only when wider
than 20 units. -/
def labelFieldEmit (pw : ℚ) (li : Rect) : List FieldD :=
  let fx0 := qadd li.x1 2
  let fx1 := min (qadd fx0 150) (qsub pw 20)
  if qsub fx1 fx0 > 20 then [⟨FKind.text, ⟨fx0, li.y0, fx1, li.y1⟩⟩] else []

/-- `PDFConverter._find_label_fields`: for every line of every text block,
concatenate the span texts, extract the colon-terminated labels, relocate
each label by glyph search, take the first hit whose top is within 5 units
of the line's top, and emit the projected text field. -/
def find_label_fields (page : Page) : List FieldD :=
  (pageTextBlocks page).flatMap (fun block =>
    block.lines.flatMap (fun line =>
      let lt := pyStrip ((line.spans.map Span.text).flatten)
      (findallLabelsNative lt).flatMap (fun label =>
        match (page.searchFor (pyStrip label ++ [':'])).find?
            (fun li => decide (|qsub li.y0 line.bbox.y0| < 5)) with
        | some li => labelFieldEmit page.width li
        | none => [])))

/-! ## Orchestrator (`detect_fields`), deduplicator and driver (`convert`) -/

/-- One step of the deduplication loop: drop degenerate rectangles, then
drop a field that intersects an already retained field of the same kind. -/
def dedupStep (unique : List FieldD) (f : FieldD) : List FieldD :=
  if f.rect.width ≤ 0 ∨ f.rect.height ≤ 0 then unique
  else if unique.any (fun u => decide (f.kind = u.kind) && f.rect.intersects u.rect) then unique
  else unique ++ [f]

/-- The deduplication pass at the end of `detect_fields`. -/
def dedupFields (l : List FieldD) : List FieldD := l.foldl dedupStep []

/-- `PDFConverter.detect_fields`: with at least one native text block run
the native pipeline (checkbox glyph search, underscore merging, and the
label locator only when no underscore fields were found); with none, and
remote OCR pages available, run the OCR pipeline on the markdown of the
first page with matching index (skipping it when that markdown is empty);
otherwise no fields.  The result is always deduplicated. -/
def detect_fields (page : Page) (pageNum : ℕ) (mistralPages : Option (List MistralPage)) :
    List FieldD :=
  let fields :=
    if 0 < (pageTextBlocks page).length then
      (find_checkbox_locations page).map (fun r => ⟨FKind.checkbox, r⟩) ++
        (let uf := find_underscore_fields page
         uf ++ (if uf = [] then find_label_fields page else []))
    else
      match mistralPages with
      | some mps =>
        let pageMd := ((mps.find? (fun mp => mp.index == pageNum)).map MistralPage.markdown).getD []
        if pageMd ≠ [] then detect_fields_ocr page pageMd else []
      | none => []
  dedupFields fields

/-- The log line `print(f"Mistral OCR failed: {e}")` of `convert`. -/
def ocrFailMsg (e : Str) : Str := strOf "Mistral OCR failed: " ++ e

/-- `PDFConverter.convert`, at the granularity the claims need: the single
up-front OCR decision (`needs_ocr`), the one remote call modelled by its
outcome `ocrCall`, the failure log, and the total number of widgets
requested (one per detected field over all pages).  Widget construction and
document saving belong to the external library. -/
def convert (doc : List Page) (ocrCall : Except Str (List MistralPage)) : List Str × ℕ :=
  let needsOcr := doc.any (fun p => (pageTextBlocks p).length == 0)
  let mistralPages : Option (List MistralPage) :=
    if needsOcr then
      match ocrCall with
      | Except.ok pgs => some pgs
      | Except.error _ => none
    else none
  let log : List Str :=
    if needsOcr then
      match ocrCall with
      | Except.error e => [ocrFailMsg e]
      | Except.ok _ => []
    else []
  (log, (doc.enum.map (fun ip => (detect_fields ip.2 ip.1 mistralPages).length)).sum)

/-! ## Claim-side definitions for the label-locator claim (C5) -/

/-- Modelled from the words of claim C5, not from the source: the claim
lists digits among the characters of the native label pattern. -/
def inClassNativeClaimed (c : Char) : Bool := inClassNative c || c.isDigit

/-- Modelled from the words of claim C5, not from the source: the native
label locator as the claim describes it — labels matched with the
digit-including class, and the emitted field's width equal to the lesser of
150 units and (page width − 20 − label's right edge), skipped when
≤ 20. -/
def find_label_fields_claimed (page : Page) : List FieldD :=
  (pageTextBlocks page).flatMap (fun block =>
    block.lines.flatMap (fun line =>
      let lt := pyStrip ((line.spans.map Span.text).flatten)
      (findallLabelsAux inClassNativeClaimed lt.length lt).flatMap (fun label =>
        match (page.searchFor (pyStrip label ++ [':'])).find?
            (fun li => decide (|qsub li.y0 line.bbox.y0| < 5)) with
        | some li =>
          let w := min 150 (qsub (qsub page.width 20) li.x1)
          if w > 20 then
            [⟨FKind.text, ⟨qadd li.x1 2, li.y0, qadd (qadd li.x1 2) w, li.y1⟩⟩]
          else []
        | none => [])))

/-! ## Theorems.  First the matcher: the loop of `_find_label_position`
computes the specification's first-best-above-threshold match. -/

/-- `qdiv` is field division on `ℚ`. -/
theorem qdiv_eq_div (a b : ℚ) : qdiv a b = a / b := by
  rcases eq_or_ne b 0 with hb | hb
  · subst hb
    simp [qdiv]
  · have hbn : (b.num : ℚ) ≠ 0 := Int.cast_ne_zero.mpr (Rat.num_ne_zero.mpr hb)
    have had : ((a.den : ℚ)) ≠ 0 := Nat.cast_ne_zero.mpr a.den_nz
    have hbd : ((b.den : ℚ)) ≠ 0 := Nat.cast_ne_zero.mpr b.den_nz
    rw [qdiv, Rat.divInt_eq_div]
    push_cast
    conv_rhs => rw [← Rat.num_div_den a, ← Rat.num_div_den b]
    field_simp

/-- `qadd` is field addition on `ℚ`. -/
theorem qadd_eq (a b : ℚ) : qadd a b = a + b := by
  have had : ((a.den : ℚ)) ≠ 0 := Nat.cast_ne_zero.mpr a.den_nz
  have hbd : ((b.den : ℚ)) ≠ 0 := Nat.cast_ne_zero.mpr b.den_nz
  rw [qadd, Rat.divInt_eq_div]
  push_cast
  conv_rhs => rw [← Rat.num_div_den a, ← Rat.num_div_den b]
  field_simp

/-- `qsub` is field subtraction on `ℚ`. -/
theorem qsub_eq (a b : ℚ) : qsub a b = a - b := by
  have had : ((a.den : ℚ)) ≠ 0 := Nat.cast_ne_zero.mpr a.den_nz
  have hbd : ((b.den : ℚ)) ≠ 0 := Nat.cast_ne_zero.mpr b.den_nz
  rw [qsub, Rat.divInt_eq_div]
  push_cast
  conv_rhs => rw [← Rat.num_div_den a, ← Rat.num_div_den b]
  field_simp
  ring

/-- The threshold is the positive rational `3/10`. -/
theorem matchThreshold_eq : matchThreshold = 3 / 10 := by
  rw [matchThreshold, Rat.mkRat_eq_divInt, Rat.divInt_eq_div]
  norm_num

theorem subScore_nonneg (lc oc : Str) : 0 ≤ subScore lc oc := by
  rw [subScore, qdiv_eq_div]
  positivity

theorem wordScore_nonneg (lc oc : Str) : 0 ≤ wordScore lc oc := by
  rw [wordScore, qdiv_eq_div]
  positivity

theorem posScore_nonneg (lc : Str) (tp : TextPos) : 0 ≤ posScore lc tp := by
  unfold posScore
  refine le_max_of_le_left ?_
  split
  · exact subScore_nonneg _ _
  · exact le_refl 0

/-- Two strictly-greater updates in sequence (substring pass then word pass)
amount to a single update by the maximum of the two candidate scores. -/
theorem twoPassMax {α : Type} (st : α × ℚ) (pv : α) (A B : Prop) [Decidable A] [Decidable B]
    (sc wc : ℚ) (hsc : 0 ≤ sc) (hwc : 0 ≤ wc) (h : 0 ≤ st.2) :
    (if B then
        (if wc > (if A then (if sc > st.2 then (pv, sc) else st) else st).2 then (pv, wc)
         else (if A then (if sc > st.2 then (pv, sc) else st) else st))
      else (if A then (if sc > st.2 then (pv, sc) else st) else st)) =
    if st.2 < max (if A then sc else 0) (if B then wc else 0) then
      (pv, max (if A then sc else 0) (if B then wc else 0))
    else st := by
  by_cases hA : A
  · by_cases hB : B
    · simp only [if_pos hA, if_pos hB]
      by_cases h1 : sc > st.2
      · simp only [if_pos h1]
        by_cases h2 : wc > sc
        · rw [if_pos h2, max_eq_right (le_of_lt h2), if_pos (lt_trans h1 h2)]
        · rw [if_neg h2, max_eq_left (not_lt.mp h2), if_pos h1]
      · simp only [if_neg h1]
        by_cases h2 : wc > st.2
        · rw [if_pos h2, max_eq_right (le_trans (not_lt.mp h1) (le_of_lt h2)), if_pos h2]
        · rw [if_neg h2, if_neg (not_lt.mpr (max_le (not_lt.mp h1) (not_lt.mp h2)))]
    · simp only [if_pos hA, if_neg hB]
      rw [max_eq_left hsc]
  · by_cases hB : B
    · simp only [if_neg hA, if_pos hB]
      rw [max_eq_right hwc]
    · simp only [if_neg hA, if_neg hB]
      rw [max_self, if_neg (not_lt.mpr h)]

/-- One iteration of the matcher loop: skip used indices; otherwise the
running state is replaced exactly when the position's combined score
`posScore` strictly exceeds the running best score. -/
theorem flpStep_spec (lc : Str) (used : List ℕ) (st : Option (ℕ × TextPos) × ℚ)
    (p : ℕ × TextPos) (h : 0 ≤ st.2) :
    flpStep lc used st p =
      if p.1 ∈ used then st
      else if st.2 < posScore lc p.2 then (some p, posScore lc p.2) else st := by
  by_cases hu : p.1 ∈ used
  · simp [flpStep, hu]
  · have key := twoPassMax st (some p)
      (lc <:+: normalizeOcr p.2.text ∨ normalizeOcr p.2.text <:+: lc)
      (1 ≤ (commonWords lc (normalizeOcr p.2.text)).length ∧ 0 < (wordSet lc).length)
      (subScore lc (normalizeOcr p.2.text)) (wordScore lc (normalizeOcr p.2.text))
      (subScore_nonneg _ _) (wordScore_nonneg _ _) h
    unfold flpStep posScore
    simp only [if_neg hu]
    exact key


set_option maxHeartbeats 1000000 in
theorem flpFold_spec (lc : Str) (used : List ℕ) (l : List (ℕ × TextPos)) :
    ∀ (bm : Option (ℕ × TextPos)) (bs : ℚ), 0 ≤ bs →
      l.foldl (flpStep lc used) (bm, bs) =
        (if bs < ((l.filter (fun q => decide (q.1 ∉ used))).map
              (fun q => posScore lc q.2)).foldr max 0 then
          ((l.filter (fun q => decide (q.1 ∉ used))).find? (fun q =>
              decide (posScore lc q.2 =
                ((l.filter (fun q => decide (q.1 ∉ used))).map
                  (fun q => posScore lc q.2)).foldr max 0)),
            ((l.filter (fun q => decide (q.1 ∉ used))).map
              (fun q => posScore lc q.2)).foldr max 0)
        else (bm, bs)) := by
  induction l with
  | nil =>
    intro bm bs h
    simp only [List.foldl_nil, List.filter_nil, List.map_nil, List.foldr_nil]
    rw [if_neg (not_lt.mpr h)]
  | cons p l ih =>
    intro bm bs h
    rw [List.foldl_cons, flpStep_spec lc used (bm, bs) p h]
    by_cases hu : p.1 ∈ used
    · rw [if_pos hu, ih bm bs h]
      have hfl : (p :: l).filter (fun q => decide (q.1 ∉ used)) =
          l.filter (fun q => decide (q.1 ∉ used)) := by
        rw [List.filter_cons, if_neg]
        simp [hu]
      rw [hfl]
    · rw [if_neg hu]
      have hfl : (p :: l).filter (fun q => decide (q.1 ∉ used)) =
          p :: l.filter (fun q => decide (q.1 ∉ used)) := by
        rw [List.filter_cons, if_pos]
        simp [hu]
      rw [hfl, List.map_cons, List.foldr_cons]
      set fl := l.filter (fun q => decide (q.1 ∉ used)) with hfldef
      set M := (fl.map (fun q => posScore lc q.2)).foldr max 0 with hMdef
      by_cases hgt : bs < posScore lc p.2
      · rw [if_pos hgt, ih (some p) (posScore lc p.2) (posScore_nonneg lc p.2)]
        by_cases hM : posScore lc p.2 < M
        · have hne : ¬ ((fun q => decide (posScore lc q.2 = M)) p = true) := by
            simp only [decide_eq_true_eq]
            exact ne_of_lt hM
          have hfind : List.find? (fun q => decide (posScore lc q.2 = M)) (p :: fl) =
              List.find? (fun q => decide (posScore lc q.2 = M)) fl :=
            List.find?_cons_of_neg _ hne
          rw [if_pos hM, max_eq_right (le_of_lt hM), if_pos (lt_trans hgt hM), hfind]
        · push_neg at hM
          have hpos : ((fun q => decide (posScore lc q.2 = posScore lc p.2)) p = true) := by
            simp only [decide_eq_true_eq]
          have hfind : List.find? (fun q => decide (posScore lc q.2 = posScore lc p.2))
              (p :: fl) = some p :=
            List.find?_cons_of_pos _ hpos
          rw [if_neg (not_lt.mpr hM), max_eq_left hM, if_pos hgt, hfind]
      · push_neg at hgt
        rw [if_neg (not_lt.mpr hgt), ih bm bs h]
        by_cases hM : bs < M
        · have hne : ¬ ((fun q => decide (posScore lc q.2 = M)) p = true) := by
            simp only [decide_eq_true_eq]
            exact ne_of_lt (lt_of_le_of_lt hgt hM)
          have hfind : List.find? (fun q => decide (posScore lc q.2 = M)) (p :: fl) =
              List.find? (fun q => decide (posScore lc q.2 = M)) fl :=
            List.find?_cons_of_neg _ hne
          rw [if_pos hM, max_eq_right (le_trans hgt (le_of_lt hM)), if_pos hM, hfind]
        · push_neg at hM
          rw [if_neg (not_lt.mpr hM), if_neg (not_lt.mpr (max_le hgt hM))]

theorem foldr_max_nonneg (xs : List ℚ) : 0 ≤ xs.foldr max 0 := by
  induction xs with
  | nil => exact le_refl 0
  | cons x xs ih =>
    rw [List.foldr_cons]
    exact le_max_of_le_right ih

theorem foldr_max_mem (xs : List ℚ) (h : 0 < xs.foldr max 0) : xs.foldr max 0 ∈ xs := by
  induction xs with
  | nil => simp at h
  | cons x xs ih =>
    rw [List.foldr_cons] at h ⊢
    rcases le_total (xs.foldr max 0) x with hle | hle
    · rw [max_eq_left hle]
      exact List.mem_cons_self x xs
    · rw [max_eq_right hle] at h ⊢
      exact List.mem_cons_of_mem x (ih h)

theorem matchThreshold_pos : 0 < matchThreshold := by
  rw [matchThreshold_eq]
  norm_num

theorem find_label_position_eq_spec (label : Str) (ps : List TextPos) (used : List ℕ) :
    find_label_position label ps used = find_label_position_spec label ps used := by
  unfold find_label_position find_label_position_spec highestScore
  by_cases hl : (normalizeLabel label).length < 2
  · rw [if_pos hl, if_pos hl]
  · rw [if_neg hl, if_neg hl]
    rw [flpFold_spec (normalizeLabel label) used ps.enum none 0 (le_refl 0)]
    set lc := normalizeLabel label with hlc
    set fl := ps.enum.filter (fun p => decide (p.1 ∉ used)) with hfl
    set M := (fl.map (fun p => posScore lc p.2)).foldr max 0 with hM
    by_cases h0 : 0 < M
    · rw [if_pos h0]
      by_cases h3 : M > matchThreshold
      · have hmem : M ∈ fl.map (fun p => posScore lc p.2) := foldr_max_mem _ h0
        obtain ⟨q, hq, hqs⟩ := List.mem_map.mp hmem
        have hsome : (fl.find? (fun p => decide (posScore lc p.2 = M))).isSome := by
          rw [List.find?_isSome]
          exact ⟨q, hq, decide_eq_true hqs⟩
        rw [if_pos ⟨hsome, h3⟩, if_pos h3]
      · rw [if_neg (fun hc => h3 hc.2), if_neg h3]
    · push_neg at h0
      rw [if_neg (not_lt.mpr h0)]
      rw [if_neg (fun hc => by simpa using hc.1)]
      rw [if_neg (not_lt.mpr (le_trans h0 (le_of_lt matchThreshold_pos)))]

theorem find_label_position_not_mem_used (label : Str) (ps : List TextPos)
    (used : List ℕ) (i : ℕ) (tp : TextPos)
    (h : find_label_position label ps used = some (i, tp)) : i ∉ used := by
  rw [find_label_position_eq_spec] at h
  unfold find_label_position_spec at h
  simp only [] at h
  split_ifs at h with h1 h2
  · have hmem := List.mem_of_find?_eq_some h
    have hdec := (List.mem_filter.mp hmem).2
    exact of_decide_eq_true hdec

theorem detect_fields_ocr_loop_fst_not_mem (pw : ℚ) (ps : List TextPos) :
    ∀ (cands : List FieldInfo) (used : List ℕ) (i : ℕ),
      i ∈ (detect_fields_ocr_loop pw ps cands used).map Prod.fst → i ∉ used := by
  intro cands
  induction cands with
  | nil =>
    intro used i hi
    simp [detect_fields_ocr_loop] at hi
  | cons fi rest ih =>
    intro used i hi
    cases hk : fi.kind with
    | checkbox =>
      cases hf : find_label_position fi.label ps used with
      | none =>
        rw [detect_fields_ocr_loop, hk, hf] at hi
        exact ih used i hi
      | some x =>
        obtain ⟨idx, tp⟩ := x
        rw [detect_fields_ocr_loop, hk, hf] at hi
        rw [List.map_cons, List.mem_cons] at hi
        rcases hi with hi | hi
        · rw [hi]
          exact find_label_position_not_mem_used _ _ _ _ _ hf
        · have := ih (idx :: used) i hi
          exact fun hc => this (List.mem_cons_of_mem _ hc)
    | text =>
      cases hf : find_label_position fi.label ps used with
      | none =>
        rw [detect_fields_ocr_loop, hk, hf] at hi
        exact ih used i hi
      | some x =>
        obtain ⟨idx, tp⟩ := x
        rw [detect_fields_ocr_loop, hk, hf] at hi
        rw [List.map_cons, List.mem_cons] at hi
        rcases hi with hi | hi
        · rw [hi]
          exact find_label_position_not_mem_used _ _ _ _ _ hf
        · have := ih (idx :: used) i hi
          exact fun hc => this (List.mem_cons_of_mem _ hc)

theorem detect_fields_ocr_loop_fst_nodup (pw : ℚ) (ps : List TextPos) :
    ∀ (cands : List FieldInfo) (used : List ℕ),
      ((detect_fields_ocr_loop pw ps cands used).map Prod.fst).Nodup := by
  intro cands
  induction cands with
  | nil =>
    intro used
    simp [detect_fields_ocr_loop]
  | cons fi rest ih =>
    intro used
    cases hk : fi.kind with
    | checkbox =>
      cases hf : find_label_position fi.label ps used with
      | none =>
        rw [detect_fields_ocr_loop, hk, hf]
        exact ih used
      | some x =>
        obtain ⟨idx, tp⟩ := x
        rw [detect_fields_ocr_loop, hk, hf, List.map_cons, List.nodup_cons]
        refine ⟨fun hc => ?_, ih (idx :: used)⟩
        exact detect_fields_ocr_loop_fst_not_mem pw ps rest (idx :: used) idx hc
          (List.mem_cons_self idx used)
    | text =>
      cases hf : find_label_position fi.label ps used with
      | none =>
        rw [detect_fields_ocr_loop, hk, hf]
        exact ih used
      | some x =>
        obtain ⟨idx, tp⟩ := x
        rw [detect_fields_ocr_loop, hk, hf, List.map_cons, List.nodup_cons]
        refine ⟨fun hc => ?_, ih (idx :: used)⟩
        exact detect_fields_ocr_loop_fst_not_mem pw ps rest (idx :: used) idx hc
          (List.mem_cons_self idx used)

theorem detect_fields_ocr_loop_entries (pw : ℚ) (ps : List TextPos) :
    ∀ (cands : List FieldInfo) (used : List ℕ) (e : ℕ × Option FieldD),
      e ∈ detect_fields_ocr_loop pw ps cands used →
        (∃ f, e.2 = some f) ∧
          (∀ f, e.2 = some f → f.kind = FKind.text →
            20 ≤ f.rect.width ∧ f.rect.width ≤ 200) := by
  intro cands
  induction cands with
  | nil =>
    intro used e he
    simp [detect_fields_ocr_loop] at he
  | cons fi rest ih =>
    intro used e he
    cases hk : fi.kind with
    | checkbox =>
      cases hf : find_label_position fi.label ps used with
      | none =>
        rw [detect_fields_ocr_loop, hk, hf] at he
        exact ih used e he
      | some x =>
        obtain ⟨idx, tp⟩ := x
        rw [detect_fields_ocr_loop, hk, hf, List.mem_cons] at he
        rcases he with he | he
        · subst he
          refine ⟨⟨_, rfl⟩, fun f hf2 hkind => ?_⟩
          rw [Option.some.injEq] at hf2
          rw [← hf2] at hkind
          exact absurd hkind (by simp)
        · exact ih (idx :: used) e he
    | text =>
      cases hf : find_label_position fi.label ps used with
      | none =>
        rw [detect_fields_ocr_loop, hk, hf] at he
        exact ih used e he
      | some x =>
        obtain ⟨idx, tp⟩ := x
        rw [detect_fields_ocr_loop, hk, hf, List.mem_cons] at he
        rcases he with he | he
        · subst he
          simp only [qadd_eq, qsub_eq]
          have h20 : tp.rect.x1 + 2 + 20 ≤
              max (tp.rect.x1 + 2 + 20)
                (min (ocrRightBound pw ps idx tp) (tp.rect.x1 + 2 + 200)) :=
            le_max_left _ _
          have h200 : max (tp.rect.x1 + 2 + 20)
              (min (ocrRightBound pw ps idx tp) (tp.rect.x1 + 2 + 200)) ≤
              tp.rect.x1 + 2 + 200 := by
            refine max_le (by linarith) ?_
            exact min_le_right _ _
          have hguard : max (tp.rect.x1 + 2 + 20)
              (min (ocrRightBound pw ps idx tp) (tp.rect.x1 + 2 + 200)) -
              (tp.rect.x1 + 2) > 15 := by linarith
          refine ⟨⟨_, by rw [if_pos hguard]⟩, fun f hf2 _ => ?_⟩
          · rw [if_pos hguard, Option.some.injEq] at hf2
            rw [← hf2]
            constructor
            · simp only [Rect.width, qsub_eq]
              linarith
            · simp only [Rect.width, qsub_eq]
              linarith
        · exact ih (idx :: used) e he

theorem dedupStep_mem_pos (acc : List FieldD) (g : FieldD)
    (hacc : ∀ f ∈ acc, 0 < f.rect.width ∧ 0 < f.rect.height) :
    ∀ f ∈ dedupStep acc g, 0 < f.rect.width ∧ 0 < f.rect.height := by
  intro f hf
  unfold dedupStep at hf
  split_ifs at hf with h1 h2
  · exact hacc f hf
  · exact hacc f hf
  · rw [List.mem_append, List.mem_singleton] at hf
    rcases hf with hf | hf
    · exact hacc f hf
    · subst hf
      push_neg at h1
      exact h1

theorem dedupFields_foldl_mem_pos :
    ∀ (l acc : List FieldD), (∀ f ∈ acc, 0 < f.rect.width ∧ 0 < f.rect.height) →
      ∀ f ∈ l.foldl dedupStep acc, 0 < f.rect.width ∧ 0 < f.rect.height := by
  intro l
  induction l with
  | nil =>
    intro acc hacc f hf
    exact hacc f hf
  | cons g l ih =>
    intro acc hacc f hf
    rw [List.foldl_cons] at hf
    exact ih (dedupStep acc g) (dedupStep_mem_pos acc g hacc) f hf

theorem dedupStep_cases (acc : List FieldD) (g : FieldD) :
    dedupStep acc g = acc ∨ dedupStep acc g = acc ++ [g] := by
  unfold dedupStep
  split_ifs with h1 h2
  · exact Or.inl rfl
  · exact Or.inl rfl
  · exact Or.inr rfl

theorem dedupFields_foldl_sublist :
    ∀ (l acc : List FieldD), (l.foldl dedupStep acc).Sublist (acc ++ l) := by
  intro l
  induction l with
  | nil =>
    intro acc
    rw [List.foldl_nil, List.append_nil]
  | cons g l ih =>
    intro acc
    rw [List.foldl_cons]
    have h1 : (l.foldl dedupStep (dedupStep acc g)).Sublist (dedupStep acc g ++ l) := ih _
    have h2 : (dedupStep acc g ++ l).Sublist ((acc ++ [g]) ++ l) := by
      rcases dedupStep_cases acc g with hc | hc
      · rw [hc]
        exact (List.sublist_append_left acc [g]).append_right l
      · rw [hc]
    have h3 : ((acc ++ [g]) ++ l) = acc ++ (g :: l) := by
      rw [List.append_assoc, List.singleton_append]
    rw [h3] at h2
    exact h1.trans h2

theorem dedupStep_append_iff (acc : List FieldD) (f : FieldD) :
    dedupStep acc f = acc ++ [f] ↔
      (0 < f.rect.width ∧ 0 < f.rect.height ∧
        ∀ u ∈ acc, ¬(f.kind = u.kind ∧ f.rect.intersects u.rect = true)) := by
  have hne : acc ≠ acc ++ [f] := by
    intro hc
    have := congrArg List.length hc
    simp at this
  unfold dedupStep
  split_ifs with h1 h2
  · constructor
    · intro hc
      exact absurd hc hne
    · rintro ⟨hw, hh, -⟩
      rcases h1 with h1 | h1
      · exact absurd hw (not_lt.mpr h1)
      · exact absurd hh (not_lt.mpr h1)
  · constructor
    · intro hc
      exact absurd hc hne
    · rintro ⟨-, -, hall⟩
      rw [List.any_eq_true] at h2
      obtain ⟨u, hu, hcond⟩ := h2
      rw [Bool.and_eq_true, decide_eq_true_eq] at hcond
      exact absurd ⟨hcond.1, hcond.2⟩ (hall u hu)
  · push_neg at h1
    constructor
    · intro hx
      refine ⟨h1.1, h1.2, fun u hu hc => ?_⟩
      rw [List.any_eq_true] at h2
      exact h2 ⟨u, hu, by rw [Bool.and_eq_true, decide_eq_true_eq]; exact hc⟩
    · intro hx
      rfl

theorem detect_fields_ocr_nil (page : Page) : detect_fields_ocr page [] = [] := rfl

theorem detect_fields_no_blocks_none (page : Page) (pn : ℕ)
    (h : pageTextBlocks page = []) : detect_fields page pn none = [] := by
  unfold detect_fields
  rw [if_neg]
  · rfl
  · rw [h]
    simp

theorem detect_fields_native_indep (page : Page) (pn : ℕ)
    (mps : Option (List MistralPage)) (h : pageTextBlocks page ≠ []) :
    detect_fields page pn mps = detect_fields page pn none := by
  unfold detect_fields
  rw [if_pos (List.length_pos.mpr h), if_pos (List.length_pos.mpr h)]

theorem labelFieldEmit_eq (pw : ℚ) (li : Rect) :
    labelFieldEmit pw li =
      (if 20 < min 150 (pw - 22 - li.x1) then
        [⟨FKind.text, ⟨li.x1 + 2, li.y0, li.x1 + 2 + min 150 (pw - 22 - li.x1), li.y1⟩⟩]
      else []) := by
  have h1 : min (li.x1 + 2 + 150) (pw - 20) = li.x1 + 2 + min 150 (pw - 22 - li.x1) := by
    rw [← min_add_add_left]
    congr 1
    ring
  unfold labelFieldEmit
  simp only [qadd_eq, qsub_eq]
  rw [h1, add_sub_cancel_left]

theorem cbProcessPart_eq (part : Str) :
    cbProcessPart part =
      (if 1 < (pyStrip (collapseWs (cbTrimOption part))).length ∧
          (pyStrip (collapseWs (cbTrimOption part))).length < 60 then
        some ⟨FKind.checkbox, (pyStrip (collapseWs (cbTrimOption part))).take 30⟩
      else none) := by
  unfold cbProcessPart
  by_cases h : 1 < (pyStrip (collapseWs (cbTrimOption part))).length ∧
      (pyStrip (collapseWs (cbTrimOption part))).length < 60
  · rw [if_pos h, if_pos]
    exact ⟨List.ne_nil_of_length_pos (by omega), h.1, h.2⟩
  · rw [if_neg h, if_neg]
    exact fun hc => h ⟨hc.2.1, hc.2.2⟩

/-! ## Claim theorems -/

/-- C2: For every label text, list of positions and set of used indices, the
fuzzy position matcher returns none when the normalized label (trailing
`:`/`*` stripped, trimmed, lowercased) is shorter than 2 characters;
otherwise it scores each unused position as the maximum of the substring
score and the word-overlap score and returns the first position attaining
the highest score if and only if that score exceeds 0.3
(`find_label_position_spec` states exactly this); in particular the label
"Patient Name" is selected against the position text "Patient Name:" and
returns none against only "Date of Birth". -/
theorem claim_C2_fuzzy_matcher :
    (∀ (label : Str) (ps : List TextPos) (used : List ℕ),
      find_label_position label ps used = find_label_position_spec label ps used) ∧
    find_label_position (strOf "Patient Name")
      [⟨strOf "Patient Name:", ⟨0, 0, 10, 10⟩, 1⟩] [] =
      some (0, ⟨strOf "Patient Name:", ⟨0, 0, 10, 10⟩, 1⟩) ∧
    find_label_position (strOf "Patient Name")
      [⟨strOf "Date of Birth", ⟨0, 0, 10, 10⟩, 1⟩] [] = none :=
  ⟨find_label_position_eq_spec, by decide, by decide⟩

/-- C3: The fuzzy matcher never returns an index in the used set, and in the
OCR detection loop every consumed position index is distinct — no two
entries (hence no two emitted FieldDescriptors) are bound to the same
TextPosition index; `detect_fields_ocr` is exactly the fields of that
instrumented loop started with an empty used set. -/
theorem claim_C3_position_reuse :
    (∀ (label : Str) (ps : List TextPos) (used : List ℕ) (i : ℕ) (tp : TextPos),
      find_label_position label ps used = some (i, tp) → i ∉ used) ∧
    (∀ (pw : ℚ) (ps : List TextPos) (cands : List FieldInfo) (used : List ℕ),
      ((detect_fields_ocr_loop pw ps cands used).map Prod.fst).Nodup) ∧
    (∀ (page : Page) (md : Str),
      detect_fields_ocr page md =
        (detect_fields_ocr_loop page.width page.ocrPositions
          (extract_form_fields_from_markdown md) []).filterMap (fun e => e.2)) :=
  ⟨find_label_position_not_mem_used, detect_fields_ocr_loop_fst_nodup,
    fun _ _ => rfl⟩

/-- C3 witness: a concrete successful match consumes index 0, which is not
in the empty used set, and the consumed indices of a concrete loop run are
distinct. -/
theorem claim_C3_position_reuse_witness :
    (0 : ℕ) ∉ ([] : List ℕ) ∧
    ((detect_fields_ocr_loop 500 [⟨strOf "Name:", ⟨20, 0, 50, 10⟩, 1⟩]
      [⟨FKind.checkbox, strOf "Name"⟩] []).map Prod.fst).Nodup :=
  ⟨claim_C3_position_reuse.1 (strOf "Name") [⟨strOf "Name:", ⟨20, 0, 50, 10⟩, 1⟩] [] 0
      ⟨strOf "Name:", ⟨20, 0, 50, 10⟩, 1⟩ (by decide),
    claim_C3_position_reuse.2.1 500 [⟨strOf "Name:", ⟨20, 0, 50, 10⟩, 1⟩]
      [⟨FKind.checkbox, strOf "Name"⟩] []⟩

/-- C9: Every entry of the OCR synthesizer loop that found a match emits a
field (the final width guard `> 15` can never discard a matched text
candidate), and every emitted Text field has width in the closed interval
[20, 200] after the clamp `max(start+20, min(right, start+200))`. -/
theorem claim_C9_ocr_text_width :
    ∀ (pw : ℚ) (ps : List TextPos) (cands : List FieldInfo) (used : List ℕ)
      (e : ℕ × Option FieldD), e ∈ detect_fields_ocr_loop pw ps cands used →
      (∃ f, e.2 = some f) ∧
      (∀ f, e.2 = some f → f.kind = FKind.text →
        20 ≤ f.rect.width ∧ f.rect.width ≤ 200) :=
  fun pw ps => detect_fields_ocr_loop_entries pw ps

/-- C9 witness: a concrete matched text candidate: the emitted field has
width 200, inside [20, 200]. -/
theorem claim_C9_ocr_text_width_witness :
    (20 : ℚ) ≤ (⟨FKind.text, ⟨52, 0, 252, 10⟩⟩ : FieldD).rect.width ∧
    (⟨FKind.text, ⟨52, 0, 252, 10⟩⟩ : FieldD).rect.width ≤ 200 := by
  have he : ((0 : ℕ), some (⟨FKind.text, ⟨52, 0, 252, 10⟩⟩ : FieldD)) ∈
      detect_fields_ocr_loop 500 [⟨strOf "Name:", ⟨20, 0, 50, 10⟩, 1⟩]
        [⟨FKind.text, strOf "Name"⟩] [] := by decide
  exact (claim_C9_ocr_text_width 500 [⟨strOf "Name:", ⟨20, 0, 50, 10⟩, 1⟩]
    [⟨FKind.text, strOf "Name"⟩] []
    ((0 : ℕ), some (⟨FKind.text, ⟨52, 0, 252, 10⟩⟩ : FieldD)) he).2
    (⟨FKind.text, ⟨52, 0, 252, 10⟩⟩ : FieldD) rfl rfl

/-- C7: The deduplicator excludes every degenerate rectangle (each retained
field has positive width and height), keeps retention order equal to
production order (the result is a sublist of the input), retains a field at
each step exactly when no previously retained field of the same kind
intersects it, and an overlapping checkbox and text field are both kept. -/
theorem claim_C7_dedup :
    (∀ (l : List FieldD) (f : FieldD), f ∈ dedupFields l →
      0 < f.rect.width ∧ 0 < f.rect.height) ∧
    (∀ l : List FieldD, (dedupFields l).Sublist l) ∧
    (∀ (acc : List FieldD) (f : FieldD),
      dedupStep acc f = acc ++ [f] ↔
        (0 < f.rect.width ∧ 0 < f.rect.height ∧
          ∀ u ∈ acc, ¬(f.kind = u.kind ∧ f.rect.intersects u.rect = true))) ∧
    dedupFields [⟨FKind.checkbox, ⟨0, 0, 10, 10⟩⟩, ⟨FKind.text, ⟨0, 0, 10, 10⟩⟩] =
      [⟨FKind.checkbox, ⟨0, 0, 10, 10⟩⟩, ⟨FKind.text, ⟨0, 0, 10, 10⟩⟩] := by
  refine ⟨?_, ?_, dedupStep_append_iff, ?_⟩
  · intro l f hf
    exact dedupFields_foldl_mem_pos l [] (by simp) f hf
  · intro l
    have := dedupFields_foldl_sublist l []
    rwa [List.nil_append] at this
  · decide

/-- C7 witness: the overlapping checkbox retained from a concrete run has
positive extent. -/
theorem claim_C7_dedup_witness :
    0 < (⟨FKind.checkbox, ⟨0, 0, 10, 10⟩⟩ : FieldD).rect.width ∧
    0 < (⟨FKind.checkbox, ⟨0, 0, 10, 10⟩⟩ : FieldD).rect.height :=
  claim_C7_dedup.1 [⟨FKind.checkbox, ⟨0, 0, 10, 10⟩⟩] ⟨FKind.checkbox, ⟨0, 0, 10, 10⟩⟩
    (by decide)

/-- C4: The underscore merger returns empty when the page search finds no
`"___"` run; one merging step folds the next instance into the current
merged rectangle (replacing it by the bounding box of both) exactly when
their vertical origins differ by less than 3 units and the instance's left
edge is under 5 units past the merged rectangle's right edge; otherwise the
instance starts a new rectangle.  Non-empty searches are sorted by
`(top, left)`, merged, and emitted as Text fields with the bottom edge
extended by 2 units; in particular a horizontal gap of 6 does not merge. -/
theorem claim_C4_underscore_merger :
    (∀ page : Page, page.searchFor (strOf "___") = [] →
      find_underscore_fields page = []) ∧
    (∀ (merged : List Rect) (last inst : Rect), merged.getLast? = some last →
      (mergeStep merged inst = merged.dropLast ++
          [⟨min last.x0 inst.x0, min last.y0 inst.y0,
            max last.x1 inst.x1, max last.y1 inst.y1⟩] ↔
        (|inst.y0 - last.y0| < 3 ∧ inst.x0 < last.x1 + 5))) ∧
    (∀ page : Page, page.searchFor (strOf "___") ≠ [] →
      find_underscore_fields page =
        ((pySortedRects (page.searchFor (strOf "___"))).foldl mergeStep []).map
          (fun m => ⟨FKind.text, ⟨m.x0, m.y0, m.x1, m.y1 + 2⟩⟩)) ∧
    find_underscore_fields
        ⟨[], 100, (fun s => if s = strOf "___" then [⟨0, 0, 10, 5⟩, ⟨16, 0, 26, 5⟩] else []), []⟩ =
      [⟨FKind.text, ⟨0, 0, 10, 7⟩⟩, ⟨FKind.text, ⟨16, 0, 26, 7⟩⟩] := by
  refine ⟨?_, ?_, ?_, ?_⟩
  · intro page h
    simp [find_underscore_fields, h]
  · intro merged last inst hlast
    have hne : merged ≠ [] := by
      intro hc
      rw [hc] at hlast
      exact Option.noConfusion hlast
    unfold mergeStep
    rw [hlast]
    simp only []
    simp only [qadd_eq, qsub_eq]
    split_ifs with hc
    · exact iff_of_true rfl hc
    · refine iff_of_false (fun heq => ?_) hc
      have hlen := congrArg List.length heq
      rw [List.length_append, List.length_append, List.length_dropLast] at hlen
      have hpos : 0 < merged.length := List.length_pos.mpr hne
      simp at hlen
      omega
  · intro page h
    simp [find_underscore_fields, h, qadd_eq]
  · decide

/-- C4 witness: an empty search yields no fields, and the merge-step
equivalence at a concrete pair with horizontal gap 6. -/
theorem claim_C4_underscore_merger_witness :
    find_underscore_fields ⟨[], 100, (fun _ => []), []⟩ = [] ∧
    (mergeStep [⟨0, 0, 10, 5⟩] ⟨16, 0, 26, 5⟩ =
        [(⟨0, 0, 10, 5⟩ : Rect)].dropLast ++
          [⟨min 0 16, min 0 0, max 10 26, max 5 5⟩] ↔
      (|(0 : ℚ) - 0| < 3 ∧ (16 : ℚ) < 10 + 5)) :=
  ⟨claim_C4_underscore_merger.1 ⟨[], 100, (fun _ => []), []⟩ rfl,
    claim_C4_underscore_merger.2.1 [⟨0, 0, 10, 5⟩] ⟨0, 0, 10, 5⟩ ⟨16, 0, 26, 5⟩ rfl⟩

/-- C1: `detect_fields` selects exactly one strategy per page: with at
least one native text block it runs the native pipeline (checkbox locator,
then underscore merger, the label locator only when the underscore merger
produced nothing, so the two are mutually exclusive with underscore
priority); with zero blocks and remote OCR pages containing a matching
index it runs the OCR pipeline on that page's markup; otherwise the page
yields an empty field list.  All branches are deduplicated. -/
theorem claim_C1_strategy_selection :
    ∀ (page : Page) (pn : ℕ) (mps : Option (List MistralPage)),
      (pageTextBlocks page ≠ [] →
        detect_fields page pn mps =
          dedupFields ((find_checkbox_locations page).map (fun r => ⟨FKind.checkbox, r⟩) ++
            (find_underscore_fields page ++
              (if find_underscore_fields page = [] then find_label_fields page else [])))) ∧
      (pageTextBlocks page = [] → ∀ (l : List MistralPage) (mp : MistralPage),
        mps = some l → l.find? (fun m => m.index == pn) = some mp →
        detect_fields page pn mps = dedupFields (detect_fields_ocr page mp.markdown)) ∧
      (pageTextBlocks page = [] → mps = none → detect_fields page pn mps = []) ∧
      (pageTextBlocks page = [] → ∀ l : List MistralPage,
        mps = some l → l.find? (fun m => m.index == pn) = none →
        detect_fields page pn mps = []) := by
  intro page pn mps
  refine ⟨?_, ?_, ?_, ?_⟩
  · intro h
    unfold detect_fields
    rw [if_pos (List.length_pos.mpr h)]
  · intro h l mp hl hfind
    subst hl
    unfold detect_fields
    rw [if_neg (by rw [h]; simp)]
    simp only []
    rw [hfind]
    simp only [Option.map, Option.getD]
    by_cases hmd : mp.markdown = []
    · rw [if_neg (by rw [hmd]; simp), hmd, detect_fields_ocr_nil]
    · rw [if_pos hmd]
  · intro h hn
    subst hn
    unfold detect_fields
    rw [if_neg (by rw [h]; simp)]
    rfl
  · intro h l hl hfind
    subst hl
    unfold detect_fields
    rw [if_neg (by rw [h]; simp)]
    simp only []
    rw [hfind]
    simp only [Option.map, Option.getD]
    rw [if_neg (by simp)]
    rfl

/-- C1 witness: a blockless page with no OCR data yields no fields, and a
page with one text block runs the native pipeline. -/
theorem claim_C1_strategy_selection_witness :
    detect_fields ⟨[], 100, (fun _ => []), []⟩ 0 none = [] ∧
    detect_fields ⟨[⟨0, []⟩], 100, (fun _ => []), []⟩ 0 none =
      dedupFields ((find_checkbox_locations ⟨[⟨0, []⟩], 100, (fun _ => []), []⟩).map
        (fun r => ⟨FKind.checkbox, r⟩) ++
        (find_underscore_fields ⟨[⟨0, []⟩], 100, (fun _ => []), []⟩ ++
          (if find_underscore_fields ⟨[⟨0, []⟩], 100, (fun _ => []), []⟩ = []
           then find_label_fields ⟨[⟨0, []⟩], 100, (fun _ => []), []⟩ else []))) :=
  ⟨(claim_C1_strategy_selection ⟨[], 100, (fun _ => []), []⟩ 0 none).2.2.1 rfl rfl,
    (claim_C1_strategy_selection ⟨[⟨0, []⟩], 100, (fun _ => []), []⟩ 0 none).1
      (by decide)⟩

/-- C8: When some page needs OCR and the single up-front remote call fails,
`convert` reports the failure in its log and still completes with the total
field count over all pages; OCR-needing pages (zero native text blocks)
contribute zero fields and native-text pages are processed exactly as with
any OCR data. -/
theorem claim_C8_ocr_failure_graceful :
    ∀ (doc : List Page) (e : Str),
      doc.any (fun p => (pageTextBlocks p).length == 0) = true →
      convert doc (Except.error e) =
        ([ocrFailMsg e],
          (doc.enum.map (fun ip => (detect_fields ip.2 ip.1 none).length)).sum) ∧
      (∀ (p : Page) (pn : ℕ), pageTextBlocks p = [] → detect_fields p pn none = []) ∧
      (∀ (p : Page) (pn : ℕ) (mps : Option (List MistralPage)), pageTextBlocks p ≠ [] →
        detect_fields p pn mps = detect_fields p pn none) := by
  intro doc e hneeds
  refine ⟨?_, fun p pn h => detect_fields_no_blocks_none p pn h,
    fun p pn mps h => detect_fields_native_indep p pn mps h⟩
  unfold convert
  simp only []
  rw [if_pos hneeds, if_pos hneeds]

/-- C8 witness: a one-page scanned document under a failed OCR call
converts to zero fields with the failure logged. -/
theorem claim_C8_ocr_failure_graceful_witness :
    convert [⟨[], 100, (fun _ => []), []⟩] (Except.error (strOf "boom")) =
      ([ocrFailMsg (strOf "boom")], 0) := by
  have h := (claim_C8_ocr_failure_graceful [⟨[], 100, (fun _ => []), []⟩]
    (strOf "boom") (by decide)).1
  rw [h]
  decide

/-- C6: For every markup line the checkbox extraction splits the line at
each occurring checkbox glyph (over the whole glyph alphabet), processes
each trailing segment by trimming it before the next glyph occurrence and
collapsing internal whitespace, and keeps it as a Checkbox candidate
exactly when its length lies strictly between 1 and 60; in particular the
line `☐ Yes ☐ No` yields exactly the two Checkbox candidates "Yes" and
"No". -/
theorem claim_C6_checkbox_extraction :
    (∀ line : Str,
      lineCheckboxFields line =
        ALL_CB.flatMap (fun cb =>
          if substrOf cb line then
            (pySplit cb line).tail.filterMap (fun part =>
              if 1 < (pyStrip (collapseWs (cbTrimOption part))).length ∧
                  (pyStrip (collapseWs (cbTrimOption part))).length < 60 then
                some ⟨FKind.checkbox, (pyStrip (collapseWs (cbTrimOption part))).take 30⟩
              else none)
          else [])) ∧
    extract_form_fields_from_markdown (strOf "☐ Yes ☐ No") =
      [⟨FKind.checkbox, strOf "Yes"⟩, ⟨FKind.checkbox, strOf "No"⟩] := by
  constructor
  · intro line
    unfold lineCheckboxFields
    rw [funext cbProcessPart_eq]
  · decide

set_option maxRecDepth 10000 in
/-- C10: Every Checkbox candidate produced by the markdown extractor has a
label of at most 30 characters (`option[:30]`); a 59-character option text
passes the length filter but is stored truncated to its first 30
characters. -/
theorem claim_C10_checkbox_label_truncation :
    (∀ (md : Str) (fi : FieldInfo), fi ∈ extract_form_fields_from_markdown md →
      fi.kind = FKind.checkbox → fi.label.length ≤ 30) ∧
    extract_form_fields_from_markdown (strOf "☐ " ++ List.replicate 59 'a') =
      [⟨FKind.checkbox, List.replicate 30 'a'⟩] := by
  constructor
  · intro md fi hfi hk
    unfold extract_form_fields_from_markdown at hfi
    rw [List.mem_flatMap] at hfi
    obtain ⟨line0, hline0, hline⟩ := hfi
    simp only [] at hline
    split_ifs at hline with hskip
    · simp at hline
    · rw [List.mem_append] at hline
      rcases hline with hcb | htxt
      · unfold lineCheckboxFields at hcb
        rw [List.mem_flatMap] at hcb
        obtain ⟨cb, hcbmem, hcb2⟩ := hcb
        split_ifs at hcb2
        · rw [List.mem_filterMap] at hcb2
          obtain ⟨part, hpartmem, hpart⟩ := hcb2
          rw [cbProcessPart_eq] at hpart
          split_ifs at hpart
          rw [Option.some.injEq] at hpart
          rw [← hpart]
          simp only [List.length_take]
          omega
        · simp at hcb2
      · unfold lineTextFields at htxt
        rw [List.mem_filterMap] at htxt
        obtain ⟨m, hmmem, hm⟩ := htxt
        simp only [] at hm
        split_ifs at hm
        rw [Option.some.injEq] at hm
        rw [← hm] at hk
        exact absurd hk (by simp)
  · decide

set_option maxRecDepth 10000 in
/-- C10 witness: the Checkbox candidate extracted from a concrete markdown
line has a label of at most 30 characters. -/
theorem claim_C10_checkbox_label_truncation_witness :
    (⟨FKind.checkbox, strOf "Yes"⟩ : FieldInfo).label.length ≤ 30 :=
  claim_C10_checkbox_label_truncation.1 (strOf "☐ Yes") ⟨FKind.checkbox, strOf "Yes"⟩
    (by decide) rfl

set_option maxRecDepth 10000 in
/-- C5 counterexample: the native label pattern does NOT admit digits
(the line text `No1:` yields no field, though the digit-admitting pattern
of the claim would), and the emitted width is
min(150, page_width − 22 − label.x1), not
min(150, page_width − 20 − label.x1): on the line `Name:` with page width
100 and relocated label right edge 50, the program emits a field 28 units
wide (right edge 80) where the claim predicts 30 units (right edge 82). -/
theorem claim_C5_label_fields_counterexample :
    find_label_fields
        ⟨[⟨0, [⟨[⟨strOf "No1:"⟩], ⟨0, 0, 30, 10⟩⟩]⟩], 100,
          (fun s => if s = strOf "No1:" then [⟨20, 0, 50, 10⟩] else []), []⟩ = [] ∧
    find_label_fields_claimed
        ⟨[⟨0, [⟨[⟨strOf "No1:"⟩], ⟨0, 0, 30, 10⟩⟩]⟩], 100,
          (fun s => if s = strOf "No1:" then [⟨20, 0, 50, 10⟩] else []), []⟩ =
      [⟨FKind.text, ⟨52, 0, 82, 10⟩⟩] ∧
    find_label_fields
        ⟨[⟨0, [⟨[⟨strOf "Name:"⟩], ⟨0, 0, 30, 10⟩⟩]⟩], 100,
          (fun s => if s = strOf "Name:" then [⟨20, 0, 50, 10⟩] else []), []⟩ =
      [⟨FKind.text, ⟨52, 0, 80, 10⟩⟩] ∧
    find_label_fields_claimed
        ⟨[⟨0, [⟨[⟨strOf "Name:"⟩], ⟨0, 0, 30, 10⟩⟩]⟩], 100,
          (fun s => if s = strOf "Name:" then [⟨20, 0, 50, 10⟩] else []), []⟩ =
      [⟨FKind.text, ⟨52, 0, 82, 10⟩⟩] := by
  refine ⟨by decide, by decide, by decide, by decide⟩

/-- C5 amended: the native label locator extracts colon-terminated labels
matched by the class of letters, whitespace, slash, apostrophe,
parentheses, hash and asterisk (digits are NOT admitted), relocates each
label by glyph search keeping the first hit whose top is within 5 units of
the line top, and emits a Text field starting 2 units right of the label
whose width is the lesser of 150 and (page width − 22 − the relocated
label right edge), skipped when that width is at most 20. -/
theorem claim_C5_label_fields_amended :
    ∀ page : Page, find_label_fields page =
      (pageTextBlocks page).flatMap (fun block =>
        block.lines.flatMap (fun line =>
          let lt := pyStrip ((line.spans.map Span.text).flatten)
          (findallLabelsNative lt).flatMap (fun label =>
            match (page.searchFor (pyStrip label ++ [':'])).find?
                (fun li => decide (|li.y0 - line.bbox.y0| < 5)) with
            | some li =>
              if 20 < min 150 (page.width - 22 - li.x1) then
                [⟨FKind.text, ⟨li.x1 + 2, li.y0,
                  li.x1 + 2 + min 150 (page.width - 22 - li.x1), li.y1⟩⟩]
              else []
            | none => [])))  := by
  intro page
  unfold find_label_fields
  simp only [labelFieldEmit_eq, qsub_eq]
